import Mathlib

/-!
Shallow embedding of the ai-news repository (scripts/fetch_feeds.py and
scripts/build_site.py) together with theorems settling the frozen claims.

Strings are modelled as Lean strings (lists of unicode scalar values, which
matches CPython strings as sequences of code points).  The regular-expression
character classes used by the scripts are modelled at ASCII precision: the
titles and descriptions the claims exercise are ASCII, and every structural
property proved below is independent of the extra non-ASCII members of the
Python classes.  External collaborators (feedparser, dateutil, the Anthropic
client, the filesystem) are modelled as explicit inputs, exactly as the spec
directs for out-of-scope collaborators.
-/

set_option maxRecDepth 1000000

namespace AiNews

/-! ### Python string primitives -/

/-- The ASCII whitespace class of Python regular expressions and of
str.strip: space, tab, newline, carriage return, vertical tab, form feed. -/
def isPySpace (c : Char) : Bool :=
  c == ' ' || c == '\t' || c == '\n' || c == '\r' || c == '\x0b' || c == '\x0c'

/-- The word class of the regex pattern [^\w\s-] in slugify, at ASCII
precision: letters, digits and the underscore. -/
def isPyWord (c : Char) : Bool :=
  c.isAlphanum || c == '_'

/-- Python str.lower at ASCII precision: map the basic latin capitals to
their lowercase forms and leave every other character unchanged. -/
def pyLower (c : Char) : Char :=
  if h : 65 ≤ c.toNat ∧ c.toNat ≤ 90 then
    Char.ofNatAux (c.toNat + 32) (Or.inl (by omega))
  else c

/-- Python str.strip with no argument: drop leading and trailing
whitespace. -/
def pyStrip (l : List Char) : List Char :=
  ((l.dropWhile isPySpace).reverse.dropWhile isPySpace).reverse

/-- Modelled after html.unescape restricted to the five predefined XML
entities; every other character, including an ampersand that does not open
one of these references, is passed through unchanged.  On text without an
ampersand this is the identity, which is the only fact the claims use. -/
def unescapeList : List Char → List Char
  | [] => []
  | '&' :: 'a' :: 'm' :: 'p' :: ';' :: r => '&' :: unescapeList r
  | '&' :: 'l' :: 't' :: ';' :: r => '<' :: unescapeList r
  | '&' :: 'g' :: 't' :: ';' :: r => '>' :: unescapeList r
  | '&' :: 'q' :: 'u' :: 'o' :: 't' :: ';' :: r => '"' :: unescapeList r
  | '&' :: 'a' :: 'p' :: 'o' :: 's' :: ';' :: r => '\x27' :: unescapeList r
  | c :: r => c :: unescapeList r

/-- Index of the first closing angle bracket, used by the tag-removal
regex of strip_html. -/
def findGt : List Char → Option Nat
  | [] => none
  | c :: r => if c = '>' then some 0 else (findGt r).map (fun n => n + 1)

/-- Fuelled scanner for the substitution re.sub applied with pattern
<[^>]+> and empty replacement.  One unit of fuel is spent per character
reached, and every recursive call also shortens the list, so fuel equal to
the length plus one never runs out. -/
def removeTagsF : Nat → List Char → List Char
  | 0, l => l
  | _ + 1, [] => []
  | f + 1, c :: r =>
      if c = '<' then
        match findGt r with
        | some n =>
            if n = 0 then '<' :: removeTagsF f r
            else removeTagsF f (r.drop (n + 1))
        | none => '<' :: removeTagsF f r
      else c :: removeTagsF f r

/-- The substitution re.sub applied with pattern <[^>]+> and empty
replacement: drop every run that starts at an opening angle bracket,
contains at least one further character, and ends at the first closing
angle bracket after it. -/
def removeTags (l : List Char) : List Char :=
  removeTagsF (l.length + 1) l

/-- Scanner for the substitution re.sub applied with pattern \s+ and a
single space: the boolean records whether the scanner stands inside a
whitespace run whose replacement space has already been emitted. -/
def collapseWsAux : Bool → List Char → List Char
  | _, [] => []
  | true, c :: r =>
      if isPySpace c then collapseWsAux true r else c :: collapseWsAux false r
  | false, c :: r =>
      if isPySpace c then ' ' :: collapseWsAux true r else c :: collapseWsAux false r

/-- The substitution re.sub applied with pattern \s+ and a single space:
collapse every maximal whitespace run into one space. -/
def collapseWs (l : List Char) : List Char :=
  collapseWsAux false l

/-- The character class of the pattern [-\s]+ used by slugify. -/
def isDashSpace (c : Char) : Bool :=
  c == '-' || isPySpace c

/-- Scanner for the substitution re.sub applied with pattern [-\s]+ and a
hyphen: the boolean records whether the scanner stands inside a run whose
replacement hyphen has already been emitted. -/
def collapseDashAux : Bool → List Char → List Char
  | _, [] => []
  | true, c :: r =>
      if isDashSpace c then collapseDashAux true r else c :: collapseDashAux false r
  | false, c :: r =>
      if isDashSpace c then '-' :: collapseDashAux true r else c :: collapseDashAux false r

/-- The substitution re.sub applied with pattern [-\s]+ and a hyphen:
collapse every maximal run of hyphens and whitespace into one hyphen. -/
def collapseDash (l : List Char) : List Char :=
  collapseDashAux false l

/-- Python str.strip with the hyphen argument: drop leading and trailing
hyphens. -/
def stripDashes (l : List Char) : List Char :=
  ((l.dropWhile (fun c => c == '-')).reverse.dropWhile (fun c => c == '-')).reverse

/-! ### MD5 (hashlib.md5, used through article_id) -/

def M32 : Nat := 4294967296

def mask32 : Nat := 4294967295

def rotl32 (x n : Nat) : Nat :=
  ((x <<< n) % M32) ||| ((x % M32) >>> (32 - n))

def mdK : List Nat :=
  [0xd76aa478, 0xe8c7b756, 0x242070db, 0xc1bdceee,
   0xf57c0faf, 0x4787c62a, 0xa8304613, 0xfd469501,
   0x698098d8, 0x8b44f7af, 0xffff5bb1, 0x895cd7be,
   0x6b901122, 0xfd987193, 0xa679438e, 0x49b40821,
   0xf61e2562, 0xc040b340, 0x265e5a51, 0xe9b6c7aa,
   0xd62f105d, 0x02441453, 0xd8a1e681, 0xe7d3fbc8,
   0x21e1cde6, 0xc33707d6, 0xf4d50d87, 0x455a14ed,
   0xa9e3e905, 0xfcefa3f8, 0x676f02d9, 0x8d2a4c8a,
   0xfffa3942, 0x8771f681, 0x6d9d6122, 0xfde5380c,
   0xa4beea44, 0x4bdecfa9, 0xf6bb4b60, 0xbebfbc70,
   0x289b7ec6, 0xeaa127fa, 0xd4ef3085, 0x04881d05,
   0xd9d4d039, 0xe6db99e5, 0x1fa27cf8, 0xc4ac5665,
   0xf4292244, 0x432aff97, 0xab9423a7, 0xfc93a039,
   0x655b59c3, 0x8f0ccc92, 0xffeff47d, 0x85845dd1,
   0x6fa87e4f, 0xfe2ce6e0, 0xa3014314, 0x4e0811a1,
   0xf7537e82, 0xbd3af235, 0x2ad7d2bb, 0xeb86d391]

def mdS : List Nat :=
  [7, 12, 17, 22, 7, 12, 17, 22, 7, 12, 17, 22, 7, 12, 17, 22,
   5, 9, 14, 20, 5, 9, 14, 20, 5, 9, 14, 20, 5, 9, 14, 20,
   4, 11, 16, 23, 4, 11, 16, 23, 4, 11, 16, 23, 4, 11, 16, 23,
   6, 10, 15, 21, 6, 10, 15, 21, 6, 10, 15, 21, 6, 10, 15, 21]

def leWord (b0 b1 b2 b3 : Nat) : Nat :=
  b0 + b1 * 256 + b2 * 65536 + b3 * 16777216

def toWords : List Nat → List Nat
  | b0 :: b1 :: b2 :: b3 :: r => leWord b0 b1 b2 b3 :: toWords r
  | _ => []

/-- Fuelled split into blocks of sixty-four bytes; fuel equal to the
length plus one never runs out, since every step consumes at least one
byte. -/
def chunk64F : Nat → List Nat → List (List Nat)
  | 0, _ => []
  | _ + 1, [] => []
  | f + 1, b :: r => ((b :: r).take 64) :: chunk64F f ((b :: r).drop 64)

def chunk64 (l : List Nat) : List (List Nat) :=
  chunk64F (l.length + 1) l

def md5pad (msg : List Nat) : List Nat :=
  let z := (119 - msg.length % 64) % 64
  let bits := (msg.length * 8) % (2 ^ 64)
  msg ++ [128] ++ List.replicate z 0 ++ (List.range 8).map (fun i => bits / (256 ^ i) % 256)

def md5F (b c d : Nat) : Nat := (b &&& c) ||| ((b ^^^ mask32) &&& d)

def md5G (b c d : Nat) : Nat := (d &&& b) ||| ((d ^^^ mask32) &&& c)

def md5H (b c d : Nat) : Nat := b ^^^ c ^^^ d

def md5I (b c d : Nat) : Nat := c ^^^ (b ||| (d ^^^ mask32))

def md5Step (m : List Nat) (st : Nat × Nat × Nat × Nat) (i : Nat) : Nat × Nat × Nat × Nat :=
  let a := st.1
  let b := st.2.1
  let c := st.2.2.1
  let d := st.2.2.2
  let fg : Nat × Nat :=
    if i < 16 then (md5F b c d, i)
    else if i < 32 then (md5G b c d, (5 * i + 1) % 16)
    else if i < 48 then (md5H b c d, (3 * i + 5) % 16)
    else (md5I b c d, (7 * i) % 16)
  let v := (a + fg.1 + mdK.getD i 0 + m.getD fg.2 0) % M32
  (d, (b + rotl32 v (mdS.getD i 0)) % M32, b, c)

def md5Block (st : Nat × Nat × Nat × Nat) (block : List Nat) : Nat × Nat × Nat × Nat :=
  let m := toWords block
  let r := (List.range 64).foldl (md5Step m) st
  ((st.1 + r.1) % M32, (st.2.1 + r.2.1) % M32,
   (st.2.2.1 + r.2.2.1) % M32, (st.2.2.2 + r.2.2.2) % M32)

def md5Init : Nat × Nat × Nat × Nat :=
  (0x67452301, 0xefcdab89, 0x98badcfe, 0x10325476)

def le4 (x : Nat) : List Nat :=
  [x % 256, x / 256 % 256, x / 65536 % 256, x / 16777216 % 256]

def md5digest (msg : List Nat) : List Nat :=
  let r := (chunk64 (md5pad msg)).foldl md5Block md5Init
  le4 r.1 ++ le4 r.2.1 ++ le4 r.2.2.1 ++ le4 r.2.2.2

def hexChar (n : Nat) : Char :=
  "0123456789abcdef".data.getD n '0'

def byteHex (b : Nat) : List Char :=
  [hexChar (b / 16), hexChar (b % 16)]

/-- UTF-8 encoding of one code point, modelling str.encode. -/
def encodeUtf8Char (n : Nat) : List Nat :=
  if n < 128 then [n]
  else if n < 2048 then [192 + n / 64, 128 + n % 64]
  else if n < 65536 then [224 + n / 4096, 128 + n / 64 % 64, 128 + n % 64]
  else [240 + n / 262144, 128 + n / 4096 % 64, 128 + n / 64 % 64, 128 + n % 64]

def encodeUtf8 (s : String) : List Nat :=
  s.data.flatMap (fun c => encodeUtf8Char c.toNat)

/-- hashlib.md5 of the UTF-8 encoding of a string, as a lowercase hex
digest. -/
def md5hex (s : String) : String :=
  ⟨((md5digest (encodeUtf8 s)).map byteHex).flatten⟩

/-! ### fetch_feeds.py pure helpers -/

/-- scripts/fetch_feeds.py, slugify. -/
def slugify (text : String) : String :=
  let t1 := unescapeList text.data
  let t2 := (t1.map pyLower).filter (fun c => isPyWord c || isPySpace c || c == '-')
  let t3 := stripDashes (collapseDash t2)
  ⟨t3.take 80⟩

/-- scripts/fetch_feeds.py, article_id: first 12 characters of the MD5 hex
digest of the url. -/
def article_id (url : String) : String :=
  ⟨(md5hex url).data.take 12⟩

/-- scripts/fetch_feeds.py, strip_html. -/
def strip_html (text : String) : String :=
  if text = "" then ""
  else ⟨pyStrip (collapseWs (unescapeList (removeTags text.data)))⟩

/-- Position of the last space of a list of characters, used to model
text.rsplit applied to a single space with one split. -/
def lastSpaceIdx : List Char → Option Nat
  | [] => none
  | c :: r =>
      match lastSpaceIdx r with
      | some i => some (i + 1)
      | none => if c = ' ' then some 0 else none

/-- Python text.rsplit at a single space with maxsplit one, first
component: everything before the last space, or the whole text when it has
no space. -/
def rsplitHead (l : List Char) : List Char :=
  match lastSpaceIdx l with
  | some i => l.take i
  | none => l

/-- scripts/fetch_feeds.py, truncate_description.  The python default for
max_chars is 300; call sites pass it explicitly here. -/
def truncate_description (text : String) (maxChars : Nat) : String :=
  let t := (strip_html text).data
  if t.length ≤ maxChars then ⟨t⟩
  else ⟨rsplitHead (t.take maxChars) ++ ['.', '.', '.']⟩

/-! ### Dates

An aware UTC datetime at second precision, the only precision the scripts
use.  Comparison is field-lexicographic, which agrees with chronological
comparison of aware datetimes in one time zone. -/

structure PyDateTime where
  year : Nat
  month : Nat
  day : Nat
  hour : Nat
  minute : Nat
  second : Nat
deriving DecidableEq, Repr

def PyDateTime.ltB (a b : PyDateTime) : Bool :=
  if a.year ≠ b.year then decide (a.year < b.year)
  else if a.month ≠ b.month then decide (a.month < b.month)
  else if a.day ≠ b.day then decide (a.day < b.day)
  else if a.hour ≠ b.hour then decide (a.hour < b.hour)
  else if a.minute ≠ b.minute then decide (a.minute < b.minute)
  else decide (a.second < b.second)

/-- Zero-pad the decimal form of a number to a given width, as strftime
does for its numeric directives. -/
def padNum (w n : Nat) : String :=
  let s := toString n
  ⟨List.replicate (w - s.length) '0' ++ s.data⟩

/-- strftime with format %Y-%m-%d, as used for the slug. -/
def fmtYMD (d : PyDateTime) : String :=
  padNum 4 d.year ++ "-" ++ padNum 2 d.month ++ "-" ++ padNum 2 d.day

/-- strftime with format %Y-%m-%dT%H:%M:%SZ, the stored date field. -/
def fmtFull (d : PyDateTime) : String :=
  fmtYMD d ++ "T" ++ padNum 2 d.hour ++ ":" ++ padNum 2 d.minute ++ ":" ++ padNum 2 d.second ++ "Z"

/-! ### Feed entries and configuration -/

/-- One feedparser entry.  A field holds none when the key is missing;
entry.get with a default models both none and the default. -/
structure Entry where
  link : Option String
  title : Option String
  published : Option String
  updated : Option String
  summary : Option String
  description : Option String
deriving DecidableEq, Repr

/-- One record of feeds.yml: feed_config with name, url and an optional
category. -/
structure FeedConfig where
  name : String
  url : String
  category : Option String
deriving DecidableEq, Repr

/-- The result object of feedparser.parse: its bozo flag and entry list.
A raised exception is modelled separately as the error arm of Except. -/
structure ParsedFeed where
  bozo : Bool
  entries : List Entry
deriving DecidableEq, Repr

/-- The Article record assembled by fetch_feed. -/
structure Article where
  title : String
  url : String
  source : String
  category : String
  date : String
  summary : String
  slug : String
deriving DecidableEq, Repr

/-- External collaborators of fetch_feed, passed explicitly: the dateutil
parser, the current UTC time, and the observable outcome of
summarize_with_claude on given inputs. -/
structure FetchEnv where
  parseDate : String → Option PyDateTime
  now : PyDateTime
  summarize : String → String → String → Option String

/-- The expression entry.get applied to published, with the or-fallback to
updated: python or takes the first truthy value, so an empty string also
falls through. -/
def entryDateStr (e : Entry) : String :=
  let p := e.published.getD ""
  if p ≠ "" then p else e.updated.getD ""

/-- The expression entry.get applied to summary, or-chained with
description and the empty string. -/
def entryDesc (e : Entry) : String :=
  let s := e.summary.getD ""
  if s ≠ "" then s else e.description.getD ""

/-- Date resolution of fetch_feed, lines 133-145.  The boolean is true
exactly when dateutil parsing succeeded, which is the only case in which
the code reaches the cutoff comparison; on a missing date string or a
parse exception the date defaults to the current time and the cutoff
comparison is skipped. -/
def resolvePubDate (parseDate : String → Option PyDateTime) (now : PyDateTime)
    (e : Entry) : Bool × PyDateTime :=
  let ds := entryDateStr e
  if ds ≠ "" then
    match parseDate ds with
    | some d => (true, d)
    | none => (false, now)
  else (false, now)

/-- The slug f-string of fetch_feed line 157. -/
def mkSlug (d : PyDateTime) (title url : String) : String :=
  fmtYMD d ++ "-" ++ slugify title ++ "-" ++ article_id url

/-- The article record assembled for one entry by the loop body of
fetch_feed, lines 147-167: stripped title, truncated description,
summarizer fallback, slug. -/
def builtArticle (env : FetchEnv) (cfg : FeedConfig) (e : Entry) : Article :=
  let ck := resolvePubDate env.parseDate env.now e
  let title := strip_html (e.title.getD "Untitled")
  let descClean := truncate_description (entryDesc e) 300
  let summary :=
    match env.summarize title descClean cfg.name with
    | some s => if s = "" then descClean else s
    | none => descClean
  { title := title
    url := e.link.getD ""
    source := cfg.name
    category := cfg.category.getD "general"
    date := fmtFull ck.2
    summary := summary
    slug := mkSlug ck.2 title (e.link.getD "") }

/-- The body of the entry loop of fetch_feed, acting on the pair of the
articles accumulated so far and the existing_urls set (modelled as a list,
with insertion at the head). -/
def processEntry (env : FetchEnv) (cfg : FeedConfig) (cutoff : PyDateTime)
    (st : List Article × List String) (e : Entry) : List Article × List String :=
  let link := e.link.getD ""
  if link = "" ∨ link ∈ st.2 then st
  else
    let ck := resolvePubDate env.parseDate env.now e
    if ck.1 && PyDateTime.ltB ck.2 cutoff then st
    else (st.1 ++ [builtArticle env cfg e], link :: st.2)

/-- scripts/fetch_feeds.py, fetch_feed.  The parsed argument carries the
feedparser outcome for the feed url; the returned pair holds the new
articles and the updated existing_urls set (mutated in place in python). -/
def fetch_feed (env : FetchEnv) (cfg : FeedConfig) (parsed : Except String ParsedFeed)
    (existingUrls : List String) (cutoff : PyDateTime) : List Article × List String :=
  match parsed with
  | .error _ => ([], existingUrls)
  | .ok pf =>
      if pf.bozo && pf.entries.isEmpty then ([], existingUrls)
      else pf.entries.foldl (processEntry env cfg cutoff) ([], existingUrls)

/-- The feed loop of main: each feed is fetched in order against the
existing_urls set threaded through, and the articles are concatenated in
discovery order. -/
def fetch_all (env : FetchEnv) : List (FeedConfig × Except String ParsedFeed) →
    List String → PyDateTime → List Article × List String
  | [], urls, _ => ([], urls)
  | (cfg, parsed) :: rest, urls, cutoff =>
      let r := fetch_feed env cfg parsed urls cutoff
      let r2 := fetch_all env rest r.2 cutoff
      (r.1 ++ r2.1, r2.2)

/-! ### Summarizer -/

/-- Observable outcome of the single Anthropic API call: the response text
of messages.create, or any exception raised during the attempt. -/
inductive ApiOutcome where
  | ok (text : String)
  | err (msg : String)
deriving DecidableEq, Repr

/-- scripts/fetch_feeds.py, summarize_with_claude.  The environment
variable and the optional import are the two configuration inputs; python
treats a missing key and an empty string alike through truthiness.  Every
exception of the try block lands in the err arm and yields none, so the
function is total: it never propagates a failure to its caller. -/
def summarize_with_claude (apiKey : Option String) (hasAnthropic : Bool)
    (api : ApiOutcome) : Option String :=
  if apiKey.getD "" = "" || !hasAnthropic then none
  else
    match api with
    | .ok t => some ⟨pyStrip t.data⟩
    | .err _ => none

/-! ### build_site.py -/

/-- One stored article as read back by frontmatter.load: a metadata
mapping, modelled by optional fields, plus the body text. -/
structure StoredArticle where
  title : Option String
  url : Option String
  source : Option String
  category : Option String
  date : Option String
  slug : Option String
  body : String
deriving DecidableEq, Repr

/-- The sort key of load_articles: a.get applied to date with an empty
default. -/
def dateKey (a : StoredArticle) : String :=
  a.date.getD ""

/-- Insert one article into an already sorted accumulator, after every
element whose key is at least as large: processing the input left to right
with this insertion reproduces the stable descending sort of list.sort
with reverse set. -/
def insertDesc (a : StoredArticle) : List StoredArticle → List StoredArticle
  | [] => [a]
  | b :: r => if dateKey b < dateKey a then a :: b :: r else b :: insertDesc a r

def insertAll : List StoredArticle → List StoredArticle → List StoredArticle
  | [], acc => acc
  | a :: r, acc => insertAll r (insertDesc a acc)

/-- The sort of load_articles line 33: stable, key date with empty
default, descending. -/
def sortByDateDesc (l : List StoredArticle) : List StoredArticle :=
  insertAll l []

/-- scripts/build_site.py, load_articles.  The input list carries the
frontmatter.load outcome for each file of the content directory in the
order produced by the sorted glob; a failing load is skipped with a logged
warning. -/
def load_articles (posts : List (Except String StoredArticle)) : List StoredArticle :=
  sortByDateDesc (posts.filterMap Except.toOption)

def SITE_URL : String := "https://elloloop.github.io/ai-news"

/-- Output path of one article page relative to the output directory,
build_site lines 75-76: a missing slug falls back to the literal untitled. -/
def articlePagePath (a : StoredArticle) : String :=
  "article/" ++ a.slug.getD "untitled" ++ ".html"

structure SitemapEntry where
  url : String
  priority : String
deriving DecidableEq, Repr

/-- The sitemap entry built for one article, build_site lines 98-102: here
a missing slug falls back to the empty string. -/
def sitemapArticleEntry (a : StoredArticle) : SitemapEntry :=
  { url := SITE_URL ++ "/article/" ++ a.slug.getD "" ++ ".html", priority := "0.6" }

/-- The sitemap entry list, build_site lines 96-102: root, then archive,
then one entry per article in order. -/
def sitemapEntries (articles : List StoredArticle) : List SitemapEntry :=
  { url := SITE_URL ++ "/", priority := "1.0" }
    :: { url := SITE_URL ++ "/archive.html", priority := "0.8" }
    :: articles.map sitemapArticleEntry

/-- Rendering of the sitemap XML, build_site lines 103-108. -/
def sitemapXml (articles : List StoredArticle) : String :=
  let header := "<?xml version=\"1.0\" encoding=\"UTF-8\"?>\n<urlset xmlns=\"http://www.sitemaps.org/schemas/sitemap/0.9\">\n"
  let body := String.join ((sitemapEntries articles).map (fun en =>
    "  <url>\n    <loc>" ++ en.url ++ "</loc>\n    <priority>" ++ en.priority ++ "</priority>\n  </url>\n"))
  header ++ body ++ "</urlset>\n"

/-- The outputs of build_site the claims speak about. -/
structure SiteOutput where
  indexArticles : List StoredArticle
  pagePaths : List String
  sitemap : List SitemapEntry
  sitemapText : String
  robots : String
deriving DecidableEq, Repr

/-- scripts/build_site.py, build_site, restricted to its pure outputs:
the thirty newest articles passed to the index template, the emitted
article page paths, the sitemap, and robots.txt. -/
def build_site (posts : List (Except String StoredArticle)) : SiteOutput :=
  let articles := load_articles posts
  { indexArticles := articles.take 30
    pagePaths := articles.map articlePagePath
    sitemap := sitemapEntries articles
    sitemapText := sitemapXml articles
    robots := "User-agent: *\nAllow: /\nSitemap: " ++ SITE_URL ++ "/sitemap.xml\n" }

/-- True when the list contains no two adjacent hyphens. -/
def noDoubleDash : List Char → Bool
  | [] => true
  | [_] => true
  | a :: b :: r => !(a == '-' && b == '-') && noDoubleDash (b :: r)

/-- The property C9 asserts of every slugify result: at most eighty
characters, only lowercase letters, digits, underscores and hyphens,
no two adjacent hyphens, and no leading or trailing hyphen. -/
def slugClaimB (l : List Char) : Bool :=
  decide (l.length ≤ 80)
    && l.all (fun c => c.isLower || c.isDigit || c == '_' || c == '-')
    && noDoubleDash l
    && !(l.head? == some '-')
    && !(l.getLast? == some '-')

/-- Seventy-nine letters, a space and one more letter: the slug pipeline
turns the space into a hyphen at position seventy-nine, and the final
eighty-character cut ends right on it. -/
def longTitle : String :=
  ⟨List.replicate 79 'a' ++ [' ', 'b']⟩

/-- The descending-key relation established by the sort of load_articles:
an earlier element has a key at least as large as any later one. -/
abbrev keyGE (a b : StoredArticle) : Prop := dateKey b ≤ dateKey a

/-- The property C3 asserts of every input: the truncated description is
either the whole stripped text, or a prefix of it that ends right before
a space of the stripped text, followed by the ellipsis. -/
abbrev wordBoundaryTrunc (text : String) (maxChars : Nat) : Prop :=
  truncate_description text maxChars = strip_html text
  ∨ ∃ k ∈ List.range (strip_html text).data.length,
      (truncate_description text maxChars).data =
        (strip_html text).data.take k ++ ['.', '.', '.']
      ∧ (strip_html text).data[k]? = some ' '

/-! ### Concrete inputs used by witnesses and counterexamples -/

def envW : FetchEnv :=
  { parseDate := fun _ => none
    now := ⟨2025, 10, 12, 0, 0, 0⟩
    summarize := fun _ _ _ => none }

def cfgW : FeedConfig := { name := "Src", url := "https://feed.example/rss", category := none }

def cutoffW : PyDateTime := ⟨2025, 10, 5, 0, 0, 0⟩

def entryDup : Entry :=
  { link := some "https://dup.com/x", title := none, published := none,
    updated := none, summary := none, description := none }

def entryW : Entry :=
  { link := some "https://x.com/1", title := some "GPT-5 Launches", published := none,
    updated := none, summary := some "A launch.", description := none }

def artW : Article :=
  { title := "GPT-5 Launches", url := "https://x.com/1", source := "Src",
    category := "general", date := "2025-10-12T00:00:00Z", summary := "A launch.",
    slug := "2025-10-12-gpt-5-launches-a5a1a0c4812e" }

def envPast : FetchEnv :=
  { parseDate := fun _ => none
    now := ⟨2025, 1, 1, 0, 0, 0⟩
    summarize := fun _ _ _ => none }

def cutoffFuture : PyDateTime := ⟨2025, 6, 1, 0, 0, 0⟩

def entryBadDate : Entry :=
  { link := some "https://ex.com/a", title := some "T", published := some "not a date",
    updated := none, summary := none, description := none }

def storedNoSlug : StoredArticle :=
  { title := none, url := none, source := none, category := none,
    date := none, slug := none, body := "" }

/-! ### Lemmas about the entry loop -/

theorem processEntry_skip {env : FetchEnv} {cfg : FeedConfig} {cutoff : PyDateTime}
    {st : List Article × List String} {e : Entry}
    (h : e.link.getD "" = "" ∨ e.link.getD "" ∈ st.2) :
    processEntry env cfg cutoff st e = st := by
  simp only [processEntry]
  rw [if_pos h]

theorem processEntry_cutoff_skip {env : FetchEnv} {cfg : FeedConfig} {cutoff : PyDateTime}
    {st : List Article × List String} {e : Entry}
    (h : ((resolvePubDate env.parseDate env.now e).1 &&
        PyDateTime.ltB (resolvePubDate env.parseDate env.now e).2 cutoff) = true) :
    processEntry env cfg cutoff st e = st := by
  simp only [processEntry]
  by_cases h1 : e.link.getD "" = "" ∨ e.link.getD "" ∈ st.2
  · rw [if_pos h1]
  · rw [if_neg h1, if_pos h]

theorem processEntry_produce {env : FetchEnv} {cfg : FeedConfig} {cutoff : PyDateTime}
    {st : List Article × List String} {e : Entry}
    (h1 : ¬(e.link.getD "" = "" ∨ e.link.getD "" ∈ st.2))
    (h2 : ((resolvePubDate env.parseDate env.now e).1 &&
        PyDateTime.ltB (resolvePubDate env.parseDate env.now e).2 cutoff) = false) :
    processEntry env cfg cutoff st e =
      (st.1 ++ [builtArticle env cfg e], e.link.getD "" :: st.2) := by
  simp only [processEntry]
  rw [if_neg h1, if_neg (by simp [h2])]

theorem processEntry_cases (env : FetchEnv) (cfg : FeedConfig) (cutoff : PyDateTime)
    (st : List Article × List String) (e : Entry) :
    processEntry env cfg cutoff st e = st ∨
      processEntry env cfg cutoff st e =
        (st.1 ++ [builtArticle env cfg e], e.link.getD "" :: st.2) := by
  by_cases h1 : e.link.getD "" = "" ∨ e.link.getD "" ∈ st.2
  · exact Or.inl (processEntry_skip h1)
  · by_cases h2 : ((resolvePubDate env.parseDate env.now e).1 &&
        PyDateTime.ltB (resolvePubDate env.parseDate env.now e).2 cutoff) = true
    · exact Or.inl (processEntry_cutoff_skip h2)
    · exact Or.inr (processEntry_produce h1 (by simpa using h2))

/-! ### Lemmas about the stable descending sort of the builder -/

theorem insertDesc_perm (a : StoredArticle) (l : List StoredArticle) :
    (insertDesc a l).Perm (a :: l) := by
  induction l with
  | nil => simp [insertDesc]
  | cons b r ih =>
      simp only [insertDesc]
      split
      · exact List.Perm.refl _
      · exact (ih.cons b).trans (List.Perm.swap a b r)

theorem insertDesc_pairwise (a : StoredArticle) (l : List StoredArticle)
    (h : l.Pairwise keyGE) : (insertDesc a l).Pairwise keyGE := by
  induction l with
  | nil => simp [insertDesc, keyGE]
  | cons b r ih =>
      rw [List.pairwise_cons] at h
      obtain ⟨hb, hr⟩ := h
      simp only [insertDesc]
      split
      · rename_i hlt
        refine List.Pairwise.cons ?_ (List.Pairwise.cons hb hr)
        intro x hx
        rcases List.mem_cons.mp hx with rfl | hx
        · exact le_of_lt hlt
        · exact le_trans (hb x hx) (le_of_lt hlt)
      · rename_i hnlt
        refine List.Pairwise.cons ?_ (ih hr)
        intro x hx
        rcases List.mem_cons.mp ((insertDesc_perm a r).mem_iff.mp hx) with rfl | hx2
        · exact le_of_not_lt hnlt
        · exact hb x hx2

theorem insertAll_perm : ∀ (l acc : List StoredArticle), (insertAll l acc).Perm (l ++ acc)
  | [], acc => by simp [insertAll]
  | a :: r, acc => by
      simp only [insertAll]
      refine (insertAll_perm r (insertDesc a acc)).trans ?_
      refine (List.Perm.append_left r (insertDesc_perm a acc)).trans ?_
      exact List.perm_middle

theorem insertAll_pairwise : ∀ (l acc : List StoredArticle),
    acc.Pairwise keyGE → (insertAll l acc).Pairwise keyGE
  | [], _, h => h
  | a :: r, acc, h => insertAll_pairwise r _ (insertDesc_pairwise a acc h)

/-! ### Claim theorems -/

/-- Claim C1: an entry whose link is empty or already in existing_urls
produces no Article and leaves the state unchanged; whenever the loop body
produces an Article its link is pushed onto existing_urls before the next
entry is processed; and a feed whose only entry has a link already in
existing_urls yields an empty Article list. -/
theorem fetch_feed_dedupes (env : FetchEnv) (cfg : FeedConfig) (cutoff : PyDateTime)
    (st : List Article × List String) (e : Entry) :
    (e.link.getD "" = "" ∨ e.link.getD "" ∈ st.2 → processEntry env cfg cutoff st e = st)
  ∧ ((processEntry env cfg cutoff st e).1 ≠ st.1 →
      (processEntry env cfg cutoff st e).2 = e.link.getD "" :: st.2)
  ∧ (∀ pf : ParsedFeed, ∀ urls : List String, pf.entries = [e] → e.link.getD "" ∈ urls →
      (fetch_feed env cfg (Except.ok pf) urls cutoff).1 = []) := by
  refine ⟨fun h => processEntry_skip h, ?_, ?_⟩
  · intro hne
    rcases processEntry_cases env cfg cutoff st e with h | h
    · rw [h] at hne; exact absurd rfl hne
    · rw [h]
  · intro pf urls hent hmem
    obtain ⟨bz, ents⟩ := pf
    simp only at hent
    subst hent
    have hskip : processEntry env cfg cutoff ([], urls) e = ([], urls) :=
      processEntry_skip (Or.inr hmem)
    simp [fetch_feed, hskip]

/-- Witness for C1 at a concrete feed: the link of the only entry is
already in the existing url set, so fetching yields no articles. -/
theorem fetch_feed_dedupes_witness :
    (fetch_feed envW cfgW (Except.ok { bozo := false, entries := [entryDup] })
      ["https://dup.com/x"] cutoffW).1 = [] :=
  (fetch_feed_dedupes envW cfgW cutoffW ([], ["https://dup.com/x"]) entryDup).2.2
    { bozo := false, entries := [entryDup] } ["https://dup.com/x"] rfl (by decide)

/-- Claim C8: a retrieval or parse failure for one feed makes fetch_feed
return an empty article list without raising (modelled by totality), a
bozo feed without entries likewise, and in the feed loop of main a failing
feed contributes nothing: the run continues on the remaining feeds with
the same url set. -/
theorem fetch_feed_failure_isolated (env : FetchEnv) (cfg : FeedConfig)
    (urls : List String) (cutoff : PyDateTime) :
    (∀ m, fetch_feed env cfg (Except.error m) urls cutoff = ([], urls))
  ∧ fetch_feed env cfg (Except.ok { bozo := true, entries := [] }) urls cutoff = ([], urls)
  ∧ (∀ m rest, fetch_all env ((cfg, Except.error m) :: rest) urls cutoff =
      fetch_all env rest urls cutoff) := by
  refine ⟨fun m => rfl, rfl, ?_⟩
  intro m rest
  simp [fetch_all, fetch_feed]

/-- Claim C5: load_articles sorts the successfully loaded articles by the
date key descending under lexical string comparison (a missing date is the
empty string, hence sorts last), the result is a permutation of the loaded
articles, and the index page is rendered from exactly the first thirty of
the sorted list. -/
theorem load_articles_sorted_index (posts : List (Except String StoredArticle)) :
    (load_articles posts).Pairwise (fun a b => dateKey b ≤ dateKey a)
  ∧ (load_articles posts).Perm (posts.filterMap Except.toOption)
  ∧ (∀ a : StoredArticle, a.date = none → dateKey a = "")
  ∧ (build_site posts).indexArticles = (load_articles posts).take 30 := by
  refine ⟨?_, ?_, ?_, rfl⟩
  · exact insertAll_pairwise _ [] List.Pairwise.nil
  · simpa [load_articles, sortByDateDesc] using
      insertAll_perm (posts.filterMap Except.toOption) []
  · intro a h; simp [dateKey, h]

/-- Claim C6: the sitemap entry list is the site root with priority 1.0,
the archive page with priority 0.8, then one entry with priority 0.6 per
article in order; its length is the article count plus two, and with zero
articles it is exactly the root and archive entries. -/
theorem sitemap_shape (posts : List (Except String StoredArticle)) :
    (build_site posts).sitemap =
      { url := SITE_URL ++ "/", priority := "1.0" }
        :: { url := SITE_URL ++ "/archive.html", priority := "0.8" }
        :: (load_articles posts).map sitemapArticleEntry
  ∧ (build_site posts).sitemap.length = (load_articles posts).length + 2
  ∧ (∀ a : StoredArticle, (sitemapArticleEntry a).priority = "0.6")
  ∧ (build_site ([] : List (Except String StoredArticle))).sitemap =
      [{ url := SITE_URL ++ "/", priority := "1.0" },
       { url := SITE_URL ++ "/archive.html", priority := "0.8" }] := by
  refine ⟨rfl, ?_, fun a => rfl, rfl⟩
  simp [build_site, sitemapEntries]

/-- Claim C10: a stored article without a slug is written to the page path
article/untitled.html, while its sitemap entry uses the empty string as
slug, so the sitemap location ends in /article/.html and does not match
the emitted page path. -/
theorem missing_slug_mismatch (a : StoredArticle) (h : a.slug = none) :
    articlePagePath a = "article/untitled.html"
  ∧ (sitemapArticleEntry a).url = "https://elloloop.github.io/ai-news/article/.html"
  ∧ (sitemapArticleEntry a).url ≠ SITE_URL ++ "/" ++ articlePagePath a := by
  refine ⟨?_, ?_, ?_⟩
  · simp [articlePagePath, h]
  · simp [sitemapArticleEntry, SITE_URL, h]
  · simp only [sitemapArticleEntry, articlePagePath, SITE_URL, h, Option.getD]
    decide

/-- The per-article invariant transported through the entry loop: every
accumulated article keeps satisfying a property that holds of every
article the loop body can build. -/
theorem foldl_processEntry_inv (env : FetchEnv) (cfg : FeedConfig) (cutoff : PyDateTime)
    (P : Article → Prop) (hP : ∀ e, P (builtArticle env cfg e)) :
    ∀ (entries : List Entry) (st : List Article × List String),
      (∀ a ∈ st.1, P a) →
      ∀ a ∈ (entries.foldl (processEntry env cfg cutoff) st).1, P a
  | [], _, h => h
  | e :: rest, st, h => by
      simp only [List.foldl]
      apply foldl_processEntry_inv env cfg cutoff P hP rest
      rcases processEntry_cases env cfg cutoff st e with hc | hc
      · rw [hc]; exact h
      · rw [hc]
        intro a ha
        rcases List.mem_append.mp ha with ha | ha
        · exact h a ha
        · rcases List.mem_singleton.mp ha with rfl
          exact hP e

/-- Claim C2: every article produced by the fetcher carries a slug equal
to the publish date formatted year-month-day, the slugified title and the
first twelve hex characters of the MD5 hash of the url, joined by
hyphens; and recomputing the slug from the same title, date and url
reproduces the identical string (mkSlug is a pure function of the
triple, so the last conjunct is its defining equation). -/
theorem article_slug_shape (env : FetchEnv) (cfg : FeedConfig)
    (parsed : Except String ParsedFeed) (urls : List String) (cutoff : PyDateTime) :
    ∀ a ∈ (fetch_feed env cfg parsed urls cutoff).1,
      ∃ d : PyDateTime, a.date = fmtFull d
        ∧ a.slug = fmtYMD d ++ "-" ++ slugify a.title ++ "-" ++ article_id a.url
        ∧ a.slug = mkSlug d a.title a.url := by
  have hP : ∀ e, ∃ d : PyDateTime, (builtArticle env cfg e).date = fmtFull d
      ∧ (builtArticle env cfg e).slug = fmtYMD d ++ "-" ++ slugify (builtArticle env cfg e).title
          ++ "-" ++ article_id (builtArticle env cfg e).url
      ∧ (builtArticle env cfg e).slug =
          mkSlug d (builtArticle env cfg e).title (builtArticle env cfg e).url :=
    fun e => ⟨(resolvePubDate env.parseDate env.now e).2, rfl, rfl, rfl⟩
  cases parsed with
  | error m => intro a ha; simp [fetch_feed] at ha
  | ok pf =>
      by_cases hb : (pf.bozo && pf.entries.isEmpty) = true
      · intro a ha
        simp [fetch_feed, hb] at ha
      · intro a ha
        simp only [fetch_feed, if_neg hb] at ha
        exact foldl_processEntry_inv env cfg cutoff
          (fun a => ∃ d : PyDateTime, a.date = fmtFull d
            ∧ a.slug = fmtYMD d ++ "-" ++ slugify a.title ++ "-" ++ article_id a.url
            ∧ a.slug = mkSlug d a.title a.url)
          hP pf.entries ([], urls) (by intro x hx; simp at hx) a ha

/-- Witness for C2 on a concrete fetched article: the MD5-hash suffix and
date stem of its slug are checked by evaluation. -/
theorem article_slug_shape_witness :
    ∃ d : PyDateTime, artW.date = fmtFull d
      ∧ artW.slug = fmtYMD d ++ "-" ++ slugify artW.title ++ "-" ++ article_id artW.url
      ∧ artW.slug = mkSlug d artW.title artW.url :=
  article_slug_shape envW cfgW (Except.ok { bozo := false, entries := [entryW] })
    [] cutoffW artW (by decide)

/-- Claim C7: summarize_with_claude is a total function (the model cannot
raise), returns none when the key is missing or empty or the anthropic
dependency is absent, returns none on any API failure, and whenever the
summarizer yields none the article built by the fetcher carries the
truncated description as its summary; the last conjunct records that the
loop body either produces exactly that built article or nothing. -/
theorem summarizer_fallback :
    (∀ (key : Option String) (dep : Bool) (api : ApiOutcome),
        key = none ∨ key = some "" ∨ dep = false → summarize_with_claude key dep api = none)
  ∧ (∀ (key : Option String) (dep : Bool) (m : String),
        summarize_with_claude key dep (ApiOutcome.err m) = none)
  ∧ (∀ (env : FetchEnv) (cfg : FeedConfig) (e : Entry),
        env.summarize (strip_html (e.title.getD "Untitled"))
            (truncate_description (entryDesc e) 300) cfg.name = none →
        (builtArticle env cfg e).summary = truncate_description (entryDesc e) 300)
  ∧ (∀ (env : FetchEnv) (cfg : FeedConfig) (cutoff : PyDateTime)
        (st : List Article × List String) (e : Entry),
        processEntry env cfg cutoff st e = st ∨
          processEntry env cfg cutoff st e =
            (st.1 ++ [builtArticle env cfg e], e.link.getD "" :: st.2)) := by
  refine ⟨?_, ?_, ?_, processEntry_cases⟩
  · intro key dep api h
    rcases h with rfl | rfl | rfl <;> simp [summarize_with_claude]
  · intro key dep m
    unfold summarize_with_claude
    split
    · rfl
    · rfl
  · intro env cfg e h
    simp [builtArticle, h]

/-- Witness for C7: with no API key configured the summarizer is
unavailable on a concrete input. -/
theorem summarizer_fallback_witness :
    summarize_with_claude none true (ApiOutcome.ok "A summary.") = none :=
  summarizer_fallback.1 none true (ApiOutcome.ok "A summary.") (Or.inl rfl)

/-- Counterexample to C4 as stated: an entry whose published value is
unparseable resolves to the current time; with a cutoff later than now its
resolved date is strictly older than the cutoff, yet the entry is not
excluded, because the code reaches the cutoff comparison only after a
successful parse. -/
theorem cutoff_claim_counterexample :
    PyDateTime.ltB (resolvePubDate envPast.parseDate envPast.now entryBadDate).2 cutoffFuture = true
  ∧ processEntry envPast cfgW cutoffFuture ([], []) entryBadDate ≠
      (([] : List Article), ([] : List String)) := by
  constructor
  · decide
  · decide

/-- Claim C4 amended: the publish date is resolved from published with
fallback to updated, defaulting to the current time when both are absent
or parsing fails; the cutoff filter applies only to successfully parsed
dates — a parsed date strictly older than the cutoff is excluded, a
parsed date not older is included, and an entry with a defaulted date is
included without any cutoff comparison. -/
theorem cutoff_amended (env : FetchEnv) (cfg : FeedConfig) (cutoff : PyDateTime)
    (st : List Article × List String) (e : Entry) :
    (entryDateStr e = "" ∨ env.parseDate (entryDateStr e) = none →
        resolvePubDate env.parseDate env.now e = (false, env.now))
  ∧ (∀ d : PyDateTime, env.parseDate (entryDateStr e) = some d → entryDateStr e ≠ "" →
        resolvePubDate env.parseDate env.now e = (true, d))
  ∧ (¬(e.link.getD "" = "" ∨ e.link.getD "" ∈ st.2) →
      (resolvePubDate env.parseDate env.now e).1 = true →
      PyDateTime.ltB (resolvePubDate env.parseDate env.now e).2 cutoff = true →
      processEntry env cfg cutoff st e = st)
  ∧ (¬(e.link.getD "" = "" ∨ e.link.getD "" ∈ st.2) →
      ((resolvePubDate env.parseDate env.now e).1 = false ∨
        PyDateTime.ltB (resolvePubDate env.parseDate env.now e).2 cutoff = false) →
      processEntry env cfg cutoff st e =
        (st.1 ++ [builtArticle env cfg e], e.link.getD "" :: st.2)) := by
  refine ⟨?_, ?_, ?_, ?_⟩
  · intro h
    by_cases hds : entryDateStr e = ""
    · simp [resolvePubDate, hds]
    · rcases h with h | h
      · exact absurd h hds
      · simp [resolvePubDate, hds, h]
  · intro d hsome hne
    simp [resolvePubDate, hne, hsome]
  · intro h1 h2 h3
    exact processEntry_cutoff_skip (by rw [h2, h3]; rfl)
  · intro h1 h2
    refine processEntry_produce h1 ?_
    rcases h2 with h2 | h2 <;> simp [h2]

/-- Witness for C4 amended: a concrete unparseable-date entry bypasses a
future cutoff and is included. -/
theorem cutoff_amended_witness :
    processEntry envPast cfgW cutoffFuture ([], []) entryBadDate =
      (([] : List Article) ++ [builtArticle envPast cfgW entryBadDate],
        entryBadDate.link.getD "" :: ([] : List String)) :=
  (cutoff_amended envPast cfgW cutoffFuture ([], []) entryBadDate).2.2.2
    (by decide) (Or.inl (by decide))

/-- Witness for C10 at a concrete slugless stored article. -/
theorem missing_slug_mismatch_witness :
    articlePagePath storedNoSlug = "article/untitled.html"
  ∧ (sitemapArticleEntry storedNoSlug).url = "https://elloloop.github.io/ai-news/article/.html"
  ∧ (sitemapArticleEntry storedNoSlug).url ≠ SITE_URL ++ "/" ++ articlePagePath storedNoSlug :=
  missing_slug_mismatch storedNoSlug rfl

/-! ### Lemmas about truncation at a word boundary -/

theorem lastSpaceIdx_none_iff (l : List Char) : lastSpaceIdx l = none ↔ ' ' ∉ l := by
  induction l with
  | nil => simp [lastSpaceIdx]
  | cons c r ih =>
      simp only [lastSpaceIdx]
      cases h : lastSpaceIdx r with
      | some i =>
          have hmem : ' ' ∈ r := by
            by_contra hn
            rw [ih.mpr hn] at h
            cases h
          simp [hmem]
      | none =>
          have hnotmem : ' ' ∉ r := ih.mp h
          by_cases hc : c = ' '
          · simp [hc]
          · simp [hc, hnotmem]
            exact fun hn => hc hn.symm

theorem lastSpaceIdx_some (l : List Char) (i : Nat) (h : lastSpaceIdx l = some i) :
    i < l.length ∧ l[i]? = some ' ' := by
  induction l generalizing i with
  | nil => cases h
  | cons c r ih =>
      simp only [lastSpaceIdx] at h
      cases hr : lastSpaceIdx r with
      | some j =>
          rw [hr] at h
          injection h with h
          subst h
          obtain ⟨hlt, hget⟩ := ih j hr
          refine ⟨by simpa using Nat.succ_lt_succ hlt, by simpa using hget⟩
      | none =>
          rw [hr] at h
          by_cases hc : c = ' '
          · rw [if_pos hc] at h
            injection h with h
            subst h
            exact ⟨by simp, by simp [hc]⟩
          · rw [if_neg hc] at h
            cases h

theorem rsplitHead_length (l : List Char) : (rsplitHead l).length ≤ l.length := by
  unfold rsplitHead
  cases h : lastSpaceIdx l with
  | none => exact Nat.le_refl _
  | some i => simp

theorem rsplitHead_no_space (l : List Char) (h : ' ' ∉ l) : rsplitHead l = l := by
  unfold rsplitHead
  rw [(lastSpaceIdx_none_iff l).mpr h]

theorem rsplitHead_boundary (l : List Char) (h : ' ' ∈ l) :
    ∃ i, rsplitHead l = l.take i ∧ l[i]? = some ' ' ∧ i < l.length := by
  cases hr : lastSpaceIdx l with
  | none => exact absurd ((lastSpaceIdx_none_iff l).mp hr) (by simp [h])
  | some i =>
      obtain ⟨hlt, hget⟩ := lastSpaceIdx_some l i hr
      exact ⟨i, by unfold rsplitHead; rw [hr], hget, hlt⟩

/-- Counterexample to C3 as stated: on the single twelve-character word
abcdefghijkl with max_chars ten the result abcdefghij... respects the
thirteen-character bound but cuts inside the word, because the first ten
characters contain no space for rsplit to break at. -/
theorem truncate_midword_counterexample :
    (truncate_description "abcdefghijkl" 10).data.length ≤ 13
  ∧ ¬ wordBoundaryTrunc "abcdefghijkl" 10 := by
  constructor
  · decide
  · decide

/-- Claim C3 amended: the result never exceeds max_chars plus the
three-character ellipsis; a stripped text that fits is returned whole;
when the stripped text exceeds max_chars and its first max_chars
characters contain a space the cut is at a word boundary with an ellipsis
appended; when they contain no space the text is cut mid-word at exactly
max_chars characters plus the ellipsis. -/
theorem truncate_amended (text : String) (maxChars : Nat) :
    (truncate_description text maxChars).data.length ≤ maxChars + 3
  ∧ ((strip_html text).data.length ≤ maxChars →
      truncate_description text maxChars = strip_html text)
  ∧ (maxChars < (strip_html text).data.length →
      ' ' ∈ (strip_html text).data.take maxChars → wordBoundaryTrunc text maxChars)
  ∧ (maxChars < (strip_html text).data.length →
      ' ' ∉ (strip_html text).data.take maxChars →
      (truncate_description text maxChars).data =
        (strip_html text).data.take maxChars ++ ['.', '.', '.']) := by
  refine ⟨?_, ?_, ?_, ?_⟩
  · unfold truncate_description
    by_cases h : (strip_html text).data.length ≤ maxChars
    · rw [if_pos h]
      exact Nat.le_trans h (Nat.le_add_right _ 3)
    · rw [if_neg h]
      have h1 := rsplitHead_length ((strip_html text).data.take maxChars)
      have h2 : ((strip_html text).data.take maxChars).length ≤ maxChars := by simp
      simp only [String.length, List.length_append, List.length_cons, List.length_nil]
      omega
  · intro h
    unfold truncate_description
    rw [if_pos h]
  · intro hlong hsp
    obtain ⟨i, heq, hget, hlt⟩ := rsplitHead_boundary _ hsp
    have hilt : i < maxChars := by
      have h' : i < min maxChars (strip_html text).data.length := by
        simpa [List.length_take] using hlt
      omega
    refine Or.inr ⟨i, List.mem_range.mpr (by omega), ?_, ?_⟩
    · unfold truncate_description
      rw [if_neg (by omega)]
      rw [heq, List.take_take, Nat.min_eq_left (Nat.le_of_lt hilt)]
    · rw [← List.getElem?_take_of_lt hilt]
      exact hget
  · intro hlong hsp
    unfold truncate_description
    rw [if_neg (by omega)]
    rw [rsplitHead_no_space _ hsp]

/-- Witness for C3 amended on a concrete input with a space inside the
first ten characters: the cut lands on the word boundary. -/
theorem truncate_amended_witness : wordBoundaryTrunc "ab cdefghijkl" 10 :=
  (truncate_amended "ab cdefghijkl" 10).2.2.1 (by decide) (by decide)

/-! ### Lemmas about slugify -/

theorem uint32_le_iff {a b : UInt32} : a ≤ b ↔ a.toNat ≤ b.toNat := by
  rw [UInt32.le_def, BitVec.le_def]
  exact Iff.rfl

theorem isUpper_ofNatAux_false (n : Nat) (h : n.isValidChar) (hn : 90 < n) :
    (Char.ofNatAux n h).isUpper = false := by
  simp only [Char.isUpper]
  have h90 : ¬((Char.ofNatAux n h).val ≤ (90 : UInt32)) := by
    rw [uint32_le_iff]
    have hv : (Char.ofNatAux n h).val.toNat = n := rfl
    have h2 : (90 : UInt32).toNat = 90 := rfl
    rw [hv, h2]
    omega
  simp [h90]

theorem isUpper_pyLower (c : Char) : (pyLower c).isUpper = false := by
  unfold pyLower
  split
  · rename_i h
    exact isUpper_ofNatAux_false _ _ (by omega)
  · rename_i h
    simp only [Char.isUpper]
    rcases Nat.lt_or_ge c.toNat 65 with h1 | h1
    · have h65 : ¬((65 : UInt32) ≤ c.val) := by
        rw [uint32_le_iff]
        have h2 : (65 : UInt32).toNat = 65 := rfl
        have h3 : c.val.toNat = c.toNat := rfl
        rw [h2, h3]
        omega
      simp [h65]
    · have h2 : 90 < c.toNat := by
        rcases Nat.lt_or_ge 90 c.toNat with h2 | h2
        · exact h2
        · exact absurd ⟨h1, h2⟩ h
      have h90 : ¬(c.val ≤ (90 : UInt32)) := by
        rw [uint32_le_iff]
        have h3 : (90 : UInt32).toNat = 90 := rfl
        have h4 : c.val.toNat = c.toNat := rfl
        rw [h3, h4]
        omega
      simp [h90]

theorem mem_collapseDashAux (c : Char) (l : List Char) : ∀ b : Bool,
    c ∈ collapseDashAux b l → c = '-' ∨ (c ∈ l ∧ isDashSpace c = false) := by
  induction l with
  | nil => intro b h; cases b <;> simp [collapseDashAux] at h
  | cons x r ih =>
      intro b h
      cases b
      · simp only [collapseDashAux] at h
        by_cases hx : isDashSpace x
        · rw [if_pos hx] at h
          rcases List.mem_cons.mp h with hc | hc
          · exact Or.inl hc
          · rcases ih true hc with h1 | ⟨h2, h3⟩
            · exact Or.inl h1
            · exact Or.inr ⟨List.mem_cons_of_mem x h2, h3⟩
        · rw [if_neg hx] at h
          rcases List.mem_cons.mp h with hc | hc
          · subst hc
            exact Or.inr ⟨List.mem_cons_self c r, by simpa using hx⟩
          · rcases ih false hc with h1 | ⟨h2, h3⟩
            · exact Or.inl h1
            · exact Or.inr ⟨List.mem_cons_of_mem x h2, h3⟩
      · simp only [collapseDashAux] at h
        by_cases hx : isDashSpace x
        · rw [if_pos hx] at h
          rcases ih true h with h1 | ⟨h2, h3⟩
          · exact Or.inl h1
          · exact Or.inr ⟨List.mem_cons_of_mem x h2, h3⟩
        · rw [if_neg hx] at h
          rcases List.mem_cons.mp h with hc | hc
          · subst hc
            exact Or.inr ⟨List.mem_cons_self c r, by simpa using hx⟩
          · rcases ih false hc with h1 | ⟨h2, h3⟩
            · exact Or.inl h1
            · exact Or.inr ⟨List.mem_cons_of_mem x h2, h3⟩

theorem mem_stripDashes {c : Char} {l : List Char} (h : c ∈ stripDashes l) : c ∈ l := by
  unfold stripDashes at h
  rw [List.mem_reverse] at h
  have h1 := (List.dropWhile_suffix _).sublist.subset h
  rw [List.mem_reverse] at h1
  exact (List.dropWhile_suffix _).sublist.subset h1

theorem head?_collapseDashAux_true (l : List Char) :
    ∀ c, (collapseDashAux true l).head? = some c → isDashSpace c = false := by
  induction l with
  | nil => intro c h; simp [collapseDashAux] at h
  | cons x r ih =>
      intro c h
      simp only [collapseDashAux] at h
      by_cases hx : isDashSpace x
      · rw [if_pos hx] at h
        exact ih c h
      · rw [if_neg hx] at h
        simp only [List.head?_cons, Option.some.injEq] at h
        subst h
        simpa using hx

theorem ndd_tail (x : Char) (r : List Char) (h : noDoubleDash (x :: r) = true) :
    noDoubleDash r = true := by
  cases r with
  | nil => simp [noDoubleDash]
  | cons y t =>
      simp only [noDoubleDash, Bool.and_eq_true] at h
      exact h.2

theorem ndd_cons (x : Char) (xs : List Char) (h1 : noDoubleDash xs = true)
    (h2 : ∀ y, xs.head? = some y → x = '-' → y ≠ '-') :
    noDoubleDash (x :: xs) = true := by
  cases xs with
  | nil => simp [noDoubleDash]
  | cons y r =>
      simp only [noDoubleDash, Bool.and_eq_true]
      refine ⟨?_, h1⟩
      by_cases hx : x = '-'
      · have hy := h2 y rfl hx
        simp [hx, hy]
      · simp [hx]

theorem ndd_collapseDashAux (l : List Char) : ∀ b : Bool,
    noDoubleDash (collapseDashAux b l) = true := by
  induction l with
  | nil => intro b; cases b <;> simp [collapseDashAux, noDoubleDash]
  | cons x r ih =>
      intro b
      cases b
      · simp only [collapseDashAux]
        by_cases hx : isDashSpace x
        · rw [if_pos hx]
          refine ndd_cons _ _ (ih true) ?_
          intro y hy _
          have hds := head?_collapseDashAux_true r y hy
          intro hy2
          rw [hy2] at hds
          simp [isDashSpace] at hds
        · rw [if_neg hx]
          refine ndd_cons _ _ (ih false) ?_
          intro y _ hx2
          rw [hx2] at hx
          simp [isDashSpace] at hx
      · simp only [collapseDashAux]
        by_cases hx : isDashSpace x
        · rw [if_pos hx]
          exact ih true
        · rw [if_neg hx]
          refine ndd_cons _ _ (ih false) ?_
          intro y _ hx2
          rw [hx2] at hx
          simp [isDashSpace] at hx

theorem ndd_iff_chain (l : List Char) :
    noDoubleDash l = true ↔ l.Chain' (fun a b => ¬(a = '-' ∧ b = '-')) := by
  induction l with
  | nil => simp [noDoubleDash]
  | cons x r ih =>
      cases r with
      | nil => simp [noDoubleDash]
      | cons y t =>
          rw [List.chain'_cons, ← ih]
          simp only [noDoubleDash, Bool.and_eq_true, Bool.not_eq_true']
          constructor
          · rintro ⟨h1, h2⟩
            refine ⟨?_, h2⟩
            rintro ⟨rfl, rfl⟩
            simp at h1
          · rintro ⟨h1, h2⟩
            refine ⟨?_, h2⟩
            by_cases hx : x = '-'
            · by_cases hy : y = '-'
              · exact absurd ⟨hx, hy⟩ h1
              · simp [hx, hy]
            · simp [hx]

theorem ndd_dropWhile (p : Char → Bool) (l : List Char) (h : noDoubleDash l = true) :
    noDoubleDash (l.dropWhile p) = true := by
  induction l with
  | nil => simpa using h
  | cons x r ih =>
      rw [List.dropWhile_cons]
      split
      · exact ih (ndd_tail x r h)
      · exact h

theorem ndd_reverse (l : List Char) (h : noDoubleDash l = true) :
    noDoubleDash l.reverse = true := by
  rw [ndd_iff_chain] at h ⊢
  rw [List.chain'_reverse]
  exact h.imp fun a b hab hc => hab ⟨hc.2, hc.1⟩

theorem ndd_take (n : Nat) (l : List Char) (h : noDoubleDash l = true) :
    noDoubleDash (l.take n) = true := by
  rw [ndd_iff_chain] at h ⊢
  exact h.take n

theorem ndd_stripDashes (l : List Char) (h : noDoubleDash l = true) :
    noDoubleDash (stripDashes l) = true := by
  unfold stripDashes
  exact ndd_reverse _ (ndd_dropWhile _ _ (ndd_reverse _ (ndd_dropWhile _ _ h)))

theorem head?_dropWhile_ne (p : Char → Bool) (l : List Char) (c : Char)
    (h : (l.dropWhile p).head? = some c) : p c = false := by
  have hw := List.head?_dropWhile_not p l
  rw [h] at hw
  exact hw

theorem getLast?_dropWhile (p : Char → Bool) (l : List Char)
    (h : l.dropWhile p ≠ []) : (l.dropWhile p).getLast? = l.getLast? := by
  obtain ⟨t, ht⟩ := List.dropWhile_suffix p (l := l)
  conv_rhs => rw [← ht]
  rw [List.getLast?_append]
  cases hs : (l.dropWhile p).getLast? with
  | none => exact absurd (List.getLast?_eq_none_iff.mp hs) h
  | some y => rfl

theorem stripDashes_getLast (l : List Char) (c : Char)
    (h : (stripDashes l).getLast? = some c) : c ≠ '-' := by
  unfold stripDashes at h
  rw [List.getLast?_reverse] at h
  have hb := head?_dropWhile_ne _ _ _ h
  simpa using hb

theorem stripDashes_head (l : List Char) (c : Char)
    (h : (stripDashes l).head? = some c) : c ≠ '-' := by
  unfold stripDashes at h
  rw [List.head?_reverse] at h
  have hne : (l.dropWhile (fun c => c == '-')).reverse.dropWhile (fun c => c == '-') ≠ [] := by
    intro h0
    rw [h0] at h
    cases h
  rw [getLast?_dropWhile _ _ hne, List.getLast?_reverse] at h
  have hb := head?_dropWhile_ne _ _ _ h
  simpa using hb

/-- Counterexample to C9 as stated: on seventy-nine letters, a space and
one more letter, the collapse step puts a hyphen at position seventy-nine
and the final eighty-character cut of slugify ends exactly on it, so the
result carries a trailing hyphen. -/
theorem slugify_claim_counterexample :
    slugClaimB (slugify longTitle).data = false := by decide

/-- Claim C9 amended: slugify returns at most eighty characters drawn from
lowercase letters, digits, underscores and hyphens, with no two adjacent
hyphens and no leading hyphen; a trailing hyphen is impossible except when
the eighty-character truncation cuts directly after a hyphen, in
particular a result shorter than eighty characters never ends in one.
Character classes are taken at ASCII precision, as in the embedding. -/
theorem slugify_amended (s : String) :
    (slugify s).data.length ≤ 80
  ∧ (∀ c ∈ (slugify s).data, (c.isLower || c.isDigit || c == '_' || c == '-') = true)
  ∧ noDoubleDash (slugify s).data = true
  ∧ (slugify s).data.head? ≠ some '-'
  ∧ ((slugify s).data.length < 80 → (slugify s).data.getLast? ≠ some '-') := by
  have hdata : (slugify s).data =
      (stripDashes (collapseDash (((unescapeList s.data).map pyLower).filter
        (fun c => isPyWord c || isPySpace c || c == '-')))).take 80 := rfl
  refine ⟨?_, ?_, ?_, ?_, ?_⟩
  · rw [hdata]
    simp
  · intro c hc
    rw [hdata] at hc
    have hc4 := mem_stripDashes ((List.take_sublist 80 _).subset hc)
    rcases mem_collapseDashAux _ _ false hc4 with h1 | ⟨h2, h3⟩
    · simp [h1]
    · rcases List.mem_filter.mp h2 with ⟨hmem, hp⟩
      obtain ⟨c0, _, rfl⟩ := List.mem_map.mp hmem
      have hup := isUpper_pyLower c0
      simp only [isDashSpace, Bool.or_eq_false_iff] at h3
      obtain ⟨hd1, hd2⟩ := h3
      simp only [isPyWord, Char.isAlphanum, Char.isAlpha, hup, hd1, hd2,
        Bool.false_or, Bool.or_false] at hp
      simp only [Bool.or_eq_true] at hp ⊢
      tauto
  · rw [hdata]
    exact ndd_take _ _ (ndd_stripDashes _ (ndd_collapseDashAux _ false))
  · rw [hdata]
    intro habs
    rw [List.head?_take, if_neg (by decide)] at habs
    exact stripDashes_head _ _ habs rfl
  · intro hlen habs
    rw [hdata] at hlen habs
    rw [List.length_take] at hlen
    rw [List.take_of_length_le (by omega)] at habs
    exact stripDashes_getLast _ _ habs rfl

/-- Witness for C9 amended at a concrete title: the slug of GPT-5 Launches
is shorter than eighty characters and does not end in a hyphen. -/
theorem slugify_amended_witness :
    (slugify "GPT-5 Launches").data.getLast? ≠ some '-' :=
  (slugify_amended "GPT-5 Launches").2.2.2.2 (by decide)

end AiNews
